import Mathlib

/-!
Verification of the scalar-tape automatic-differentiation contract exercised by
`my_demos/demo_miso_scalar/main.cpp`.

The demo traces the function `f(x,y,z) = x*x + z*z + 2*x*y + z` (`my_function`)
on a tape, then queries derivatives through three entry points: scalar forward
mode (`fos_forward`, once per basis direction), scalar reverse mode
(`fos_reverse` with weight 1), and the convenience `gradient` driver.  The
differentiation engine itself lives in the external ADOL-C library, so the
engine here is modelled from the specification's core algorithmic contract
(Tape / Evaluator / Forward Propagator / Reverse Accumulator / Gradient
wrapper); the traced function, the recorded delay loop, and the sequence of
calls in `main` are translated from the demo source.

Scalars are modelled as exact rationals `ℚ`; at the demo's inputs every
double-precision operation performed by the program is exact, so the rational
model agrees with the concrete run.
-/

namespace ADemo

/-- Modelled from the spec: the error kinds of the engine (spec section 7).
`TraceError` for malformed traces, `DimensionMismatch` for wrong-length vector
arguments, `UnsupportedOp` for operations outside the supported set. -/
inductive ADError where
  | TraceError
  | DimensionMismatch
  | UnsupportedOp
  deriving DecidableEq, Repr

/-- Modelled from the spec: one elementary tape operation (spec section 3,
TapeNode kinds): constant, input-reference, add, multiply,
power-by-non-negative-integer-constant.  Operand fields are indices of earlier
tape nodes. -/
inductive Op where
  | const (c : ℚ)
  | input (i : Nat)
  | add (a b : Nat)
  | mul (a b : Nat)
  | powc (a : Nat) (k : Nat)
  deriving DecidableEq, Repr

/-- The operand indices of an elementary operation. -/
def opOperands : Op → List Nat
  | .const _ => []
  | .input _ => []
  | .add a b => [a, b]
  | .mul a b => [a, b]
  | .powc a _ => [a]

/-- Modelled from the spec: a sealed tape (spec section 3): the ordered node
list, the number of designated input slots, and the single output node index. -/
structure Tape where
  nodes : List Op
  inputCount : Nat
  outputIndex : Nat
  deriving DecidableEq, Repr

/-- DAG well-formedness of a node list whose first node sits at index `i`:
every node's operand indices are strictly below the node's own index. -/
def wfFrom : List Op → Nat → Bool
  | [], _ => true
  | op :: rest, i => ((opOperands op).all fun j => decide (j < i)) && wfFrom rest (i + 1)

/-- DAG well-formedness check: every node's operand indices strictly precede
the node's own index. -/
def wellFormedB (nodes : List Op) : Bool :=
  wfFrom nodes 0

/-- The tape DAG invariant as a proposition. -/
def wellFormed (nodes : List Op) : Prop :=
  wellFormedB nodes = true

/-- Modelled from the spec: `beginTrace` (spec section 4.1) creates one
input-reference node per declared input; the returned placeholders are the
indices `0, ..., n-1`. -/
def beginTrace (n : Nat) : List Op :=
  (List.range n).map .input

/-- Recording one elementary operation during tracing: append one node, return
the new placeholder (the node's index) together with the grown node list. -/
def recordOp (nodes : List Op) (op : Op) : Nat × List Op :=
  (nodes.length, nodes ++ [op])

/-- Modelled from the spec: `endTrace` (spec section 4.1) seals the tape.  It
fails with `TraceError` when the designated output is not a placeholder of this
trace, when zero elementary operations were recorded beyond the input
placeholders, or when some node references a placeholder that did not precede
it. -/
def endTrace (n : Nat) (nodes : List Op) (out : Nat) : Except ADError Tape :=
  if out < nodes.length ∧ n < nodes.length ∧ wellFormedB nodes then
    .ok ⟨nodes, n, out⟩
  else
    .error .TraceError

/-- Forward value rule of one elementary operation (spec section 4.2):
`xs` are the input values, `vals` the values of the already-replayed nodes. -/
def evalOp (xs vals : List ℚ) : Op → ℚ
  | .const c => c
  | .input i => xs.getD i 0
  | .add a b => vals.getD a 0 + vals.getD b 0
  | .mul a b => vals.getD a 0 * vals.getD b 0
  | .powc a k => (vals.getD a 0) ^ k

/-- One step of the value replay: append the new node's value. -/
def evalStep (xs vals : List ℚ) (op : Op) : List ℚ :=
  vals ++ [evalOp xs vals op]

/-- Modelled from the spec: the Evaluator's per-node value array (spec section
4.2): replay every node in index order. -/
def evalNodes (nodes : List Op) (xs : List ℚ) : List ℚ :=
  nodes.foldl (evalStep xs) []

/-- Modelled from the spec: `evaluate(tape, inputValues)` (spec section 4.2)
returns the scalar output together with the full per-node value array, or
fails with `DimensionMismatch` on a wrong-length input vector. -/
def evaluate (t : Tape) (xs : List ℚ) : Except ADError (ℚ × List ℚ) :=
  if xs.length = t.inputCount then
    let vals := evalNodes t.nodes xs
    .ok (vals.getD t.outputIndex 0, vals)
  else
    .error .DimensionMismatch

/-- Forward value-and-tangent rule of one elementary operation (spec section
4.3): each accumulated pair is `(value, tangent)`. -/
def fwdOp (xs dxs : List ℚ) (acc : List (ℚ × ℚ)) : Op → ℚ × ℚ
  | .const c => (c, 0)
  | .input i => (xs.getD i 0, dxs.getD i 0)
  | .add a b =>
      ((acc.getD a (0, 0)).1 + (acc.getD b (0, 0)).1,
       (acc.getD a (0, 0)).2 + (acc.getD b (0, 0)).2)
  | .mul a b =>
      ((acc.getD a (0, 0)).1 * (acc.getD b (0, 0)).1,
       (acc.getD a (0, 0)).2 * (acc.getD b (0, 0)).1 +
         (acc.getD a (0, 0)).1 * (acc.getD b (0, 0)).2)
  | .powc a k =>
      ((acc.getD a (0, 0)).1 ^ k,
       (k : ℚ) * (acc.getD a (0, 0)).1 ^ (k - 1) * (acc.getD a (0, 0)).2)

/-- One step of the joint value/tangent pass. -/
def fwdStep (xs dxs : List ℚ) (acc : List (ℚ × ℚ)) (op : Op) : List (ℚ × ℚ) :=
  acc ++ [fwdOp xs dxs acc op]

/-- The Forward Propagator's single pass (spec section 4.3): one
`(value, tangent)` pair per node, computed in recording order. -/
def fwdNodes (nodes : List Op) (xs dxs : List ℚ) : List (ℚ × ℚ) :=
  nodes.foldl (fwdStep xs dxs) []

/-- Modelled from the spec: `forward(tape, inputValues, tangentVector)` (spec
section 4.3) returns the output value and the directional derivative along the
tangent seed; fails with `DimensionMismatch` when either vector has the wrong
length. -/
def forward (t : Tape) (xs dxs : List ℚ) : Except ADError (ℚ × ℚ) :=
  if xs.length = t.inputCount then
    if dxs.length = t.inputCount then
      let pairs := fwdNodes t.nodes xs dxs
      .ok (pairs.getD t.outputIndex (0, 0))
    else
      .error .DimensionMismatch
  else
    .error .DimensionMismatch

/-- Reverse adjoint-distribution rule for the node at index `idx` (spec
section 4.4): distribute the node's adjoint to its operands according to the
operation's derivative rule. -/
def adjStep (nodes : List Op) (vals adj : List ℚ) (idx : Nat) : List ℚ :=
  let w := adj.getD idx 0
  match nodes.getD idx (.const 0) with
  | .const _ => adj
  | .input _ => adj
  | .add a b =>
      let adj1 := adj.set a (adj.getD a 0 + w)
      adj1.set b (adj1.getD b 0 + w)
  | .mul a b =>
      let adj1 := adj.set a (adj.getD a 0 + w * vals.getD b 0)
      adj1.set b (adj1.getD b 0 + w * vals.getD a 0)
  | .powc a k =>
      adj.set a (adj.getD a 0 + w * (k : ℚ) * (vals.getD a 0) ^ (k - 1))

/-- The Reverse Accumulator's walk (spec section 4.4): process node indices
`n-1, n-2, ..., 0` in strictly reverse order, threading the adjoint vector. -/
def sweepN (nodes : List Op) (vals adj : List ℚ) : Nat → List ℚ
  | 0 => adj
  | n + 1 => sweepN nodes vals (adjStep nodes vals adj n) n

/-- Modelled from the spec: `reverse(tape, perNodeValues, outputWeight)` (spec
section 4.4): seed the output node's adjoint with `outputWeight`, every other
adjoint with `0`, walk the nodes in strictly reverse index order distributing
adjoints, and return the input-node adjoints (the first `inputCount` nodes are
the input placeholders created by `beginTrace`).  Fails with
`DimensionMismatch` when `perNodeValues` does not have one entry per node. -/
def reverse (t : Tape) (vals : List ℚ) (w : ℚ) : Except ADError (List ℚ) :=
  if vals.length = t.nodes.length then
    let adj0 := (List.replicate t.nodes.length (0 : ℚ)).set t.outputIndex w
    let adj := sweepN t.nodes vals adj0 t.nodes.length
    .ok ((List.range t.inputCount).map fun i => adj.getD i 0)
  else
    .error .DimensionMismatch

/-- Modelled from the spec: the gradient convenience wrapper (spec section
4.5): one value replay followed by one reverse sweep with output weight `1`,
written out as a single self-contained pass here; its equivalence with the
`evaluate`-then-`reverse` composition is proved below. -/
def gradient (t : Tape) (xs : List ℚ) : Except ADError (List ℚ) :=
  if xs.length = t.inputCount then
    let vals := evalNodes t.nodes xs
    let adj0 := (List.replicate t.nodes.length (0 : ℚ)).set t.outputIndex 1
    let adj := sweepN t.nodes vals adj0 t.nodes.length
    .ok ((List.range t.inputCount).map fun i => adj.getD i 0)
  else
    .error .DimensionMismatch

/-!
The demo's tape, translated from `main.cpp`.

The active section records, on tape `tag = 0`:
* three independent variables `x[0] <<= 1.0`, `x[1] <<= 1.0`, `x[2] <<= 1.0`
  (input placeholders `0, 1, 2`);
* the artificial delay loop `for (j = 0; j < 1e7; ++j) x[0] = x[0] + 0*j;`,
  which appends, per iteration, the constant `0*j = 0` and the sum
  `x[0] + 0`, rebinding the placeholder held by `x[0]`;
* the body of `my_function`, `f = x*x + z*z + 2*x*y + z`, evaluated
  left-to-right.
-/

/-- The three input placeholders recorded by `x[i] <<= xp[i]`. -/
def inputNodes3 : List Op :=
  [.input 0, .input 1, .input 2]

/-- The placeholder held by the program variable `x[0]` after `k` iterations
of the delay loop: initially the input node `0`, afterwards the latest
rebound sum node. -/
def x0idx : Nat → Nat
  | 0 => 0
  | k + 1 => 4 + 2 * k

/-- The nodes recorded by `k` iterations of the delay loop
`x[0] = x[0] + 0*j`: each iteration appends a constant-`0` node (at index
`3 + 2*j`) and an add node rebinding `x[0]` (at index `4 + 2*j`). -/
def delayChain : Nat → List Op
  | 0 => []
  | k + 1 => delayChain k ++ [.const 0, .add (x0idx k) (3 + 2 * k)]

/-- The nodes recorded by the body of `my_function`,
`f = x*x + z*z + 2*x*y + z`, where `p` is the placeholder currently held by
`x[0]`, placeholders `1` and `2` hold `y` and `z`, and `L` is the number of
nodes already on the tape.  Left-to-right: `x*x`, `z*z`, the constant `2`,
`2*x`, `(2*x)*y`, `x*x + z*z`, `(x*x + z*z) + 2*x*y`, and `... + z`. -/
def traceBody (p L : Nat) : List Op :=
  [.mul p p, .mul 2 2, .const 2, .mul (L + 2) p, .mul (L + 3) 1,
   .add L (L + 1), .add (L + 5) (L + 4), .add (L + 6) 2]

/-- The demo's tape when the delay loop runs `N` iterations: inputs, delay
chain, function body; the output is the final node. -/
def myTapeDelay (N : Nat) : Tape :=
  ⟨inputNodes3 ++ delayChain N ++ traceBody (x0idx N) (3 + 2 * N), 3, 10 + 2 * N⟩

/-- The tape of `my_function` alone (no delay iterations). -/
def myTape : Tape := myTapeDelay 0

/-- The number of delay-loop iterations in the demo source (`j < 1e7`). -/
def delayCount : Nat := 10000000

/-- The tape actually recorded by the demo's active section, delay included. -/
def demoTape : Tape := myTapeDelay delayCount

/-- A run of `k` successive calls of the gradient entry point on the same
sealed tape and the same input vector, collecting every returned result. -/
def gradientCalls (t : Tape) (xs : List ℚ) (k : Nat) : List (Except ADError (List ℚ)) :=
  (List.range k).map fun _ => gradient t xs

/-!
The derivative-query phase of `main`, as a small state machine: the state
carries the caller-owned independent vector `xp` and the result slots the
program writes into (`y1` per forward direction, the adjoint vector `z`, and
`grad`); each step performs one library call from `main.cpp`, reading `xp`
and filling one result slot.
-/

/-- The variables of `main` that the derivative section touches. -/
structure DemoState where
  xp : List ℚ
  y1dx : Option (Except ADError (ℚ × ℚ))
  y1dy : Option (Except ADError (ℚ × ℚ))
  y1dz : Option (Except ADError (ℚ × ℚ))
  zrev : Option (Except ADError (List ℚ))
  grad : Option (Except ADError (List ℚ))

/-- `main` before any derivative call: `xp = {1.0, 1.0, 1.0}`, no results yet. -/
def demoInit : DemoState :=
  ⟨[1, 1, 1], none, none, none, none, none⟩

/-- The five derivative calls of `main`, in program order: `fos_forward` along
each basis direction, `fos_reverse` with weight `u[0] = 1` (which consumes the
values kept by a prior evaluation at `xp`), and the `gradient` driver. -/
def demoSteps : List (DemoState → DemoState) :=
  [fun s => { s with y1dx := some (forward demoTape s.xp [1, 0, 0]) },
   fun s => { s with y1dy := some (forward demoTape s.xp [0, 1, 0]) },
   fun s => { s with y1dz := some (forward demoTape s.xp [0, 0, 1]) },
   fun s => { s with zrev := some ((evaluate demoTape s.xp).bind fun p => reverse demoTape p.2 1) },
   fun s => { s with grad := some (gradient demoTape s.xp) }]

/-- The demo after its first `k` derivative calls. -/
def demoRun (k : Nat) : DemoState :=
  (demoSteps.take k).foldl (fun s f => f s) demoInit

/-! ### General lemmas about the engine -/

theorem length_foldl_evalStep (xs : List ℚ) :
    ∀ (nodes : List Op) (acc : List ℚ),
      (List.foldl (evalStep xs) acc nodes).length = acc.length + nodes.length := by
  intro nodes
  induction nodes with
  | nil => intro acc; simp
  | cons op rest ih =>
      intro acc
      rw [List.foldl_cons, ih]
      simp [evalStep]
      omega

theorem evalNodes_length (nodes : List Op) (xs : List ℚ) :
    (evalNodes nodes xs).length = nodes.length := by
  rw [evalNodes, length_foldl_evalStep]
  simp

theorem getD_map_fst (acc : List (ℚ × ℚ)) (i : Nat) :
    (acc.map Prod.fst).getD i 0 = (acc.getD i (0, 0)).1 := by
  induction acc generalizing i with
  | nil => simp
  | cons hd tl ih =>
      cases i with
      | zero => simp
      | succ j => simpa using ih j

theorem option_getD_fst (o : Option (ℚ × ℚ)) :
    (Option.map Prod.fst o).getD 0 = (o.getD (0, 0)).1 := by
  cases o <;> rfl

theorem fwdOp_fst (xs dxs : List ℚ) (acc : List (ℚ × ℚ)) (op : Op) :
    (fwdOp xs dxs acc op).1 = evalOp xs (acc.map Prod.fst) op := by
  cases op <;> simp [fwdOp, evalOp, getD_map_fst, option_getD_fst]

theorem map_fst_foldl_fwdStep (xs dxs : List ℚ) :
    ∀ (nodes : List Op) (acc : List (ℚ × ℚ)),
      (List.foldl (fwdStep xs dxs) acc nodes).map Prod.fst =
        List.foldl (evalStep xs) (acc.map Prod.fst) nodes := by
  intro nodes
  induction nodes with
  | nil => intro acc; simp
  | cons op rest ih =>
      intro acc
      rw [List.foldl_cons, List.foldl_cons, ih]
      congr 1
      simp [fwdStep, evalStep, fwdOp_fst]

theorem fwdNodes_map_fst (nodes : List Op) (xs dxs : List ℚ) :
    (fwdNodes nodes xs dxs).map Prod.fst = evalNodes nodes xs := by
  rw [fwdNodes, evalNodes, map_fst_foldl_fwdStep]
  rfl

theorem fwdNodes_value (nodes : List Op) (xs dxs : List ℚ) (i : Nat) :
    ((fwdNodes nodes xs dxs).getD i (0, 0)).1 = (evalNodes nodes xs).getD i 0 := by
  rw [← fwdNodes_map_fst nodes xs dxs, getD_map_fst]

theorem wfFrom_append (l l' : List Op) :
    ∀ i, wfFrom (l ++ l') i = (wfFrom l i && wfFrom l' (i + l.length)) := by
  induction l with
  | nil => intro i; simp [wfFrom]
  | cons op rest ih =>
      intro i
      rw [List.cons_append, wfFrom, wfFrom, ih (i + 1), Bool.and_assoc]
      have : i + 1 + rest.length = i + (rest.length + 1) := by omega
      simp [this]

theorem getD_off {α : Type} (V W : List α) (d : α) (k : Nat) :
    (V ++ W).getD (V.length + k) d = W.getD k d := by
  rw [List.getD_append_right _ _ _ _ (Nat.le_add_right _ _), Nat.add_sub_cancel_left]

theorem getD_at_len {α : Type} (V W : List α) (d : α) :
    (V ++ W).getD V.length d = W.getD 0 d := by
  rw [List.getD_append_right _ _ _ _ (Nat.le_refl _), Nat.sub_self]

theorem set_off {α : Type} (V W : List α) (v : α) (k : Nat) :
    (V ++ W).set (V.length + k) v = V ++ W.set k v := by
  rw [List.set_append_right _ _ (Nat.le_add_right _ _), Nat.add_sub_cancel_left]

theorem set_at_len {α : Type} (V W : List α) (v : α) :
    (V ++ W).set V.length v = V ++ W.set 0 v := by
  rw [List.set_append_right _ _ (Nat.le_refl _), Nat.sub_self]

theorem getD_set_self {α : Type} (l : List α) (i : Nat) (v d : α) (h : i < l.length) :
    (l.set i v).getD i d = v := by
  rw [List.getD_eq_getElem _ _ (by simpa using h)]
  simp

theorem getD_set_ne {α : Type} (l : List α) (i j : Nat) (v d : α) (h : i ≠ j) :
    (l.set i v).getD j d = l.getD j d := by
  by_cases hj : j < l.length
  · rw [List.getD_eq_getElem _ _ (by simpa using hj), List.getD_eq_getElem _ _ hj]
    exact List.getElem_set_ne h _
  · rw [List.getD_eq_default _ _ (by simpa using Nat.le_of_not_lt hj),
      List.getD_eq_default _ _ (Nat.le_of_not_lt hj)]

theorem getD_replicate_zero (n i : Nat) :
    (List.replicate n (0 : ℚ)).getD i 0 = 0 := by
  rw [List.getD_eq_getElem?_getD]
  simp

/-- Per-node values of the delay chain: each iteration contributes the
constant `0` and the unchanged value of `x`. -/
def chainVals (a : ℚ) : Nat → List ℚ
  | 0 => []
  | k + 1 => chainVals a k ++ [0, a]

/-- Per-node values of the function body at `x = a`, `y = b`, `z = c`. -/
def bodyVals (a b c : ℚ) : List ℚ :=
  [a*a, c*c, 2, 2*a, 2*a*b, a*a + c*c, a*a + c*c + 2*a*b, a*a + c*c + 2*a*b + c]

theorem delayChain_length : ∀ N, (delayChain N).length = 2 * N := by
  intro N
  induction N with
  | zero => rfl
  | succ k ih =>
      rw [delayChain]
      simp [ih]
      omega

theorem chainVals_length (a : ℚ) : ∀ N, (chainVals a N).length = 2 * N := by
  intro N
  induction N with
  | zero => rfl
  | succ k ih =>
      rw [chainVals]
      simp [ih]
      omega

theorem x0idx_lt (N : Nat) : x0idx N < 3 + 2 * N := by
  cases N with
  | zero => simp [x0idx]
  | succ k => rw [x0idx]; omega

theorem chainVals_getD (a b c : ℚ) (N : Nat) :
    ([a, b, c] ++ chainVals a N).getD (x0idx N) 0 = a := by
  cases N with
  | zero => rfl
  | succ k =>
      rw [x0idx, chainVals, ← List.append_assoc]
      have hlen : ([a, b, c] ++ chainVals a k).length = 3 + 2 * k := by
        simp [chainVals_length]
        omega
      rw [show 4 + 2 * k = ([a, b, c] ++ chainVals a k).length + 1 from by rw [hlen]; omega]
      rw [getD_off]
      rfl

theorem foldl_delayChain (xs : List ℚ) (a b c : ℚ) :
    ∀ N, List.foldl (evalStep xs) [a, b, c] (delayChain N) = [a, b, c] ++ chainVals a N := by
  intro N
  induction N with
  | zero => rfl
  | succ k ih =>
      rw [delayChain, List.foldl_append, ih, List.foldl_cons, List.foldl_cons, List.foldl_nil]
      have e1 : evalStep xs ([a, b, c] ++ chainVals a k) (.const 0) =
          ([a, b, c] ++ chainVals a k) ++ [0] := rfl
      rw [e1]
      simp only [evalStep, evalOp]
      have hWlen : ([a, b, c] ++ chainVals a k).length = 3 + 2 * k := by
        simp [chainVals_length]
        omega
      have g1 : ((([a, b, c] ++ chainVals a k) ++ [(0 : ℚ)])).getD (x0idx k) 0 = a := by
        rw [List.getD_append _ _ _ _ (by rw [hWlen]; exact x0idx_lt k)]
        exact chainVals_getD a b c k
      have g2 : ((([a, b, c] ++ chainVals a k) ++ [(0 : ℚ)])).getD (3 + 2 * k) 0 = 0 := by
        rw [show 3 + 2 * k = ([a, b, c] ++ chainVals a k).length from hWlen.symm, getD_at_len]
        rfl
      rw [g1, g2, add_zero, chainVals, List.append_assoc, List.append_assoc]
      rfl

theorem foldl_traceBody (xs V : List ℚ) (p : Nat) (a b c : ℚ)
    (hp : V.getD p 0 = a) (h1 : V.getD 1 0 = b) (h2 : V.getD 2 0 = c)
    (hpV : p < V.length) (h2V : 2 < V.length) :
    List.foldl (evalStep xs) V (traceBody p V.length) = V ++ bodyVals a b c := by
  have h1V : 1 < V.length := by omega
  rw [traceBody]
  rw [List.foldl_cons, List.foldl_cons, List.foldl_cons, List.foldl_cons,
      List.foldl_cons, List.foldl_cons, List.foldl_cons, List.foldl_cons, List.foldl_nil]
  have e0 : evalStep xs V (Op.mul p p) = V ++ [a*a] := by
    simp only [evalStep, evalOp]
    rw [hp]
  rw [e0]
  have e1 : evalStep xs (V ++ [a*a]) (Op.mul 2 2) = V ++ [a*a, c*c] := by
    simp only [evalStep, evalOp]
    rw [List.getD_append _ _ _ _ h2V, h2, List.append_assoc]
    rfl
  rw [e1]
  have e2 : evalStep xs (V ++ [a*a, c*c]) (Op.const 2) = V ++ [a*a, c*c, 2] := by
    simp only [evalStep, evalOp]
    rw [List.append_assoc]
    rfl
  rw [e2]
  have e3 : evalStep xs (V ++ [a*a, c*c, 2]) (Op.mul (V.length + 2) p) =
      V ++ [a*a, c*c, 2, 2*a] := by
    simp only [evalStep, evalOp]
    rw [getD_off, List.getD_append _ _ _ _ hpV, hp, List.append_assoc]
    rfl
  rw [e3]
  have e4 : evalStep xs (V ++ [a*a, c*c, 2, 2*a]) (Op.mul (V.length + 3) 1) =
      V ++ [a*a, c*c, 2, 2*a, 2*a*b] := by
    simp only [evalStep, evalOp]
    rw [getD_off, List.getD_append _ _ _ _ h1V, h1, List.append_assoc]
    rfl
  rw [e4]
  have e5 : evalStep xs (V ++ [a*a, c*c, 2, 2*a, 2*a*b])
      (Op.add V.length (V.length + 1)) =
      V ++ [a*a, c*c, 2, 2*a, 2*a*b, a*a + c*c] := by
    simp only [evalStep, evalOp]
    rw [getD_at_len, getD_off, List.append_assoc]
    rfl
  rw [e5]
  have e6 : evalStep xs (V ++ [a*a, c*c, 2, 2*a, 2*a*b, a*a + c*c])
      (Op.add (V.length + 5) (V.length + 4)) =
      V ++ [a*a, c*c, 2, 2*a, 2*a*b, a*a + c*c, a*a + c*c + 2*a*b] := by
    simp only [evalStep, evalOp]
    rw [getD_off, getD_off, List.append_assoc]
    rfl
  rw [e6]
  have e7 : evalStep xs (V ++ [a*a, c*c, 2, 2*a, 2*a*b, a*a + c*c, a*a + c*c + 2*a*b])
      (Op.add (V.length + 6) 2) =
      V ++ [a*a, c*c, 2, 2*a, 2*a*b, a*a + c*c, a*a + c*c + 2*a*b, a*a + c*c + 2*a*b + c] := by
    simp only [evalStep, evalOp]
    rw [getD_off, List.getD_append _ _ _ _ h2V, h2, List.append_assoc]
    rfl
  rw [e7]
  rfl

theorem evalNodes_delay (N : Nat) (a b c : ℚ) :
    evalNodes (myTapeDelay N).nodes [a, b, c] =
      ([a, b, c] ++ chainVals a N) ++ bodyVals a b c := by
  have hW : ([a, b, c] ++ chainVals a N).length = 3 + 2 * N := by
    simp [chainVals_length]
    omega
  show evalNodes ((inputNodes3 ++ delayChain N) ++ traceBody (x0idx N) (3 + 2 * N)) [a, b, c] = _
  rw [evalNodes, List.foldl_append, List.foldl_append]
  have h0 : List.foldl (evalStep [a, b, c]) [] inputNodes3 = [a, b, c] := rfl
  rw [h0, foldl_delayChain]
  rw [show 3 + 2 * N = ([a, b, c] ++ chainVals a N).length from hW.symm]
  refine foldl_traceBody [a, b, c] _ (x0idx N) a b c (chainVals_getD a b c N) ?_ ?_ ?_ ?_
  · rw [List.getD_append _ _ _ _ (by norm_num)]; rfl
  · rw [List.getD_append _ _ _ _ (by norm_num)]; rfl
  · rw [hW]; exact x0idx_lt N
  · rw [hW]; omega

theorem myTapeDelay_nodes_length (N : Nat) :
    (myTapeDelay N).nodes.length = 11 + 2 * N := by
  show ((inputNodes3 ++ delayChain N) ++ traceBody (x0idx N) (3 + 2 * N)).length = _
  simp [inputNodes3, traceBody, delayChain_length]
  omega

theorem evaluate_delay (N : Nat) (a b c : ℚ) :
    evaluate (myTapeDelay N) [a, b, c] =
      .ok (a*a + c*c + 2*a*b + c, ([a, b, c] ++ chainVals a N) ++ bodyVals a b c) := by
  have hcond : ([a, b, c] : List ℚ).length = (myTapeDelay N).inputCount := rfl
  rw [evaluate, if_pos hcond]
  show Except.ok
      ((evalNodes (myTapeDelay N).nodes [a, b, c]).getD (myTapeDelay N).outputIndex 0,
        evalNodes (myTapeDelay N).nodes [a, b, c]) = _
  rw [evalNodes_delay]
  have hW : ([a, b, c] ++ chainVals a N).length = 3 + 2 * N := by
    simp [chainVals_length]
    omega
  have hout : ((([a, b, c] ++ chainVals a N) ++ bodyVals a b c)).getD (myTapeDelay N).outputIndex 0 =
      a*a + c*c + 2*a*b + c := by
    show ((([a, b, c] ++ chainVals a N) ++ bodyVals a b c)).getD (10 + 2 * N) 0 = _
    rw [show 10 + 2 * N = ([a, b, c] ++ chainVals a N).length + 7 from by rw [hW]; omega]
    rw [getD_off]
    rfl
  rw [hout]

/-- Per-node `(value, tangent)` pairs of the delay chain. -/
def chainFwd (a da : ℚ) : Nat → List (ℚ × ℚ)
  | 0 => []
  | k + 1 => chainFwd a da k ++ [(0, 0), (a, da)]

/-- Per-node `(value, tangent)` pairs of the function body, exactly as the
forward rules produce them. -/
def bodyFwd (a b c da db dc : ℚ) : List (ℚ × ℚ) :=
  [(a*a, da*a + a*da), (c*c, dc*c + c*dc), (2, 0), (2*a, 0*a + 2*da),
   (2*a*b, (0*a + 2*da)*b + 2*a*db),
   (a*a + c*c, da*a + a*da + (dc*c + c*dc)),
   (a*a + c*c + 2*a*b, da*a + a*da + (dc*c + c*dc) + ((0*a + 2*da)*b + 2*a*db)),
   (a*a + c*c + 2*a*b + c,
     da*a + a*da + (dc*c + c*dc) + ((0*a + 2*da)*b + 2*a*db) + dc)]

theorem chainFwd_length (a da : ℚ) : ∀ N, (chainFwd a da N).length = 2 * N := by
  intro N
  induction N with
  | zero => rfl
  | succ k ih =>
      rw [chainFwd]
      simp [ih]
      omega

theorem chainFwd_getD (a b c da db dc : ℚ) (N : Nat) :
    ([(a, da), (b, db), (c, dc)] ++ chainFwd a da N).getD (x0idx N) (0, 0) = (a, da) := by
  cases N with
  | zero => rfl
  | succ k =>
      rw [x0idx, chainFwd, ← List.append_assoc]
      have hlen : ([(a, da), (b, db), (c, dc)] ++ chainFwd a da k).length = 3 + 2 * k := by
        simp [chainFwd_length]
        omega
      rw [show 4 + 2 * k = ([(a, da), (b, db), (c, dc)] ++ chainFwd a da k).length + 1 from by
        rw [hlen]; omega]
      rw [getD_off]
      rfl

theorem foldl_delayChainFwd (xs dxs : List ℚ) (a b c da db dc : ℚ) :
    ∀ N, List.foldl (fwdStep xs dxs) [(a, da), (b, db), (c, dc)] (delayChain N) =
      [(a, da), (b, db), (c, dc)] ++ chainFwd a da N := by
  intro N
  induction N with
  | zero => rfl
  | succ k ih =>
      rw [delayChain, List.foldl_append, ih, List.foldl_cons, List.foldl_cons, List.foldl_nil]
      have e1 : fwdStep xs dxs ([(a, da), (b, db), (c, dc)] ++ chainFwd a da k) (.const 0) =
          ([(a, da), (b, db), (c, dc)] ++ chainFwd a da k) ++ [((0 : ℚ), (0 : ℚ))] := rfl
      rw [e1]
      simp only [fwdStep, fwdOp]
      have hWlen : ([(a, da), (b, db), (c, dc)] ++ chainFwd a da k).length = 3 + 2 * k := by
        simp [chainFwd_length]
        omega
      have g1 : ((([(a, da), (b, db), (c, dc)] ++ chainFwd a da k) ++
          [((0 : ℚ), (0 : ℚ))])).getD (x0idx k) (0, 0) = (a, da) := by
        rw [List.getD_append _ _ _ _ (by rw [hWlen]; exact x0idx_lt k)]
        exact chainFwd_getD a b c da db dc k
      have g2 : ((([(a, da), (b, db), (c, dc)] ++ chainFwd a da k) ++
          [((0 : ℚ), (0 : ℚ))])).getD (3 + 2 * k) (0, 0) = (0, 0) := by
        rw [show 3 + 2 * k = ([(a, da), (b, db), (c, dc)] ++ chainFwd a da k).length from
          hWlen.symm, getD_at_len]
        rfl
      rw [g1, g2]
      show ([(a, da), (b, db), (c, dc)] ++ chainFwd a da k) ++ [(0, 0)] ++ [(a + 0, da + 0)] = _
      rw [add_zero, add_zero, chainFwd, List.append_assoc, List.append_assoc]
      rfl

theorem foldl_traceBodyFwd (xs dxs : List ℚ) (V : List (ℚ × ℚ)) (p : Nat)
    (a b c da db dc : ℚ)
    (hp : V.getD p (0, 0) = (a, da)) (h1 : V.getD 1 (0, 0) = (b, db))
    (h2 : V.getD 2 (0, 0) = (c, dc))
    (hpV : p < V.length) (h2V : 2 < V.length) :
    List.foldl (fwdStep xs dxs) V (traceBody p V.length) = V ++ bodyFwd a b c da db dc := by
  have h1V : 1 < V.length := by omega
  rw [traceBody]
  rw [List.foldl_cons, List.foldl_cons, List.foldl_cons, List.foldl_cons,
      List.foldl_cons, List.foldl_cons, List.foldl_cons, List.foldl_cons, List.foldl_nil]
  have e0 : fwdStep xs dxs V (Op.mul p p) = V ++ [(a*a, da*a + a*da)] := by
    simp only [fwdStep, fwdOp]
    rw [hp]
  rw [e0]
  have e1 : fwdStep xs dxs (V ++ [(a*a, da*a + a*da)]) (Op.mul 2 2) =
      V ++ [(a*a, da*a + a*da), (c*c, dc*c + c*dc)] := by
    simp only [fwdStep, fwdOp]
    rw [List.getD_append _ _ _ _ h2V, h2, List.append_assoc]
    rfl
  rw [e1]
  have e2 : fwdStep xs dxs (V ++ [(a*a, da*a + a*da), (c*c, dc*c + c*dc)]) (Op.const 2) =
      V ++ [(a*a, da*a + a*da), (c*c, dc*c + c*dc), (2, 0)] := by
    simp only [fwdStep, fwdOp]
    rw [List.append_assoc]
    rfl
  rw [e2]
  have e3 : fwdStep xs dxs (V ++ [(a*a, da*a + a*da), (c*c, dc*c + c*dc), (2, 0)])
      (Op.mul (V.length + 2) p) =
      V ++ [(a*a, da*a + a*da), (c*c, dc*c + c*dc), (2, 0), (2*a, 0*a + 2*da)] := by
    simp only [fwdStep, fwdOp]
    rw [getD_off, List.getD_append _ _ _ _ hpV, hp, List.append_assoc]
    rfl
  rw [e3]
  have e4 : fwdStep xs dxs
      (V ++ [(a*a, da*a + a*da), (c*c, dc*c + c*dc), (2, 0), (2*a, 0*a + 2*da)])
      (Op.mul (V.length + 3) 1) =
      V ++ [(a*a, da*a + a*da), (c*c, dc*c + c*dc), (2, 0), (2*a, 0*a + 2*da),
        (2*a*b, (0*a + 2*da)*b + 2*a*db)] := by
    simp only [fwdStep, fwdOp]
    rw [getD_off, List.getD_append _ _ _ _ h1V, h1, List.append_assoc]
    rfl
  rw [e4]
  have e5 : fwdStep xs dxs
      (V ++ [(a*a, da*a + a*da), (c*c, dc*c + c*dc), (2, 0), (2*a, 0*a + 2*da),
        (2*a*b, (0*a + 2*da)*b + 2*a*db)])
      (Op.add V.length (V.length + 1)) =
      V ++ [(a*a, da*a + a*da), (c*c, dc*c + c*dc), (2, 0), (2*a, 0*a + 2*da),
        (2*a*b, (0*a + 2*da)*b + 2*a*db),
        (a*a + c*c, da*a + a*da + (dc*c + c*dc))] := by
    simp only [fwdStep, fwdOp]
    rw [getD_at_len, getD_off, List.append_assoc]
    rfl
  rw [e5]
  have e6 : fwdStep xs dxs
      (V ++ [(a*a, da*a + a*da), (c*c, dc*c + c*dc), (2, 0), (2*a, 0*a + 2*da),
        (2*a*b, (0*a + 2*da)*b + 2*a*db),
        (a*a + c*c, da*a + a*da + (dc*c + c*dc))])
      (Op.add (V.length + 5) (V.length + 4)) =
      V ++ [(a*a, da*a + a*da), (c*c, dc*c + c*dc), (2, 0), (2*a, 0*a + 2*da),
        (2*a*b, (0*a + 2*da)*b + 2*a*db),
        (a*a + c*c, da*a + a*da + (dc*c + c*dc)),
        (a*a + c*c + 2*a*b,
          da*a + a*da + (dc*c + c*dc) + ((0*a + 2*da)*b + 2*a*db))] := by
    simp only [fwdStep, fwdOp]
    rw [getD_off, getD_off, List.append_assoc]
    rfl
  rw [e6]
  have e7 : fwdStep xs dxs
      (V ++ [(a*a, da*a + a*da), (c*c, dc*c + c*dc), (2, 0), (2*a, 0*a + 2*da),
        (2*a*b, (0*a + 2*da)*b + 2*a*db),
        (a*a + c*c, da*a + a*da + (dc*c + c*dc)),
        (a*a + c*c + 2*a*b,
          da*a + a*da + (dc*c + c*dc) + ((0*a + 2*da)*b + 2*a*db))])
      (Op.add (V.length + 6) 2) =
      V ++ bodyFwd a b c da db dc := by
    simp only [fwdStep, fwdOp]
    rw [getD_off, List.getD_append _ _ _ _ h2V, h2, List.append_assoc]
    rfl
  rw [e7]

theorem fwdNodes_delay (N : Nat) (a b c da db dc : ℚ) :
    fwdNodes (myTapeDelay N).nodes [a, b, c] [da, db, dc] =
      ([(a, da), (b, db), (c, dc)] ++ chainFwd a da N) ++ bodyFwd a b c da db dc := by
  have hW : ([(a, da), (b, db), (c, dc)] ++ chainFwd a da N).length = 3 + 2 * N := by
    simp [chainFwd_length]
    omega
  show fwdNodes ((inputNodes3 ++ delayChain N) ++ traceBody (x0idx N) (3 + 2 * N))
      [a, b, c] [da, db, dc] = _
  rw [fwdNodes, List.foldl_append, List.foldl_append]
  have h0 : List.foldl (fwdStep [a, b, c] [da, db, dc]) [] inputNodes3 =
      [(a, da), (b, db), (c, dc)] := rfl
  rw [h0, foldl_delayChainFwd]
  rw [show 3 + 2 * N = ([(a, da), (b, db), (c, dc)] ++ chainFwd a da N).length from hW.symm]
  refine foldl_traceBodyFwd [a, b, c] [da, db, dc] _ (x0idx N) a b c da db dc
    (chainFwd_getD a b c da db dc N) ?_ ?_ ?_ ?_
  · rw [List.getD_append _ _ _ _ (by norm_num)]; rfl
  · rw [List.getD_append _ _ _ _ (by norm_num)]; rfl
  · rw [hW]; exact x0idx_lt N
  · rw [hW]; omega

theorem forward_delay (N : Nat) (a b c da db dc : ℚ) :
    forward (myTapeDelay N) [a, b, c] [da, db, dc] =
      .ok (a*a + c*c + 2*a*b + c,
        da*a + a*da + (dc*c + c*dc) + ((0*a + 2*da)*b + 2*a*db) + dc) := by
  have hx : ([a, b, c] : List ℚ).length = (myTapeDelay N).inputCount := rfl
  have hd : ([da, db, dc] : List ℚ).length = (myTapeDelay N).inputCount := rfl
  rw [forward, if_pos hx, if_pos hd]
  show Except.ok
      ((fwdNodes (myTapeDelay N).nodes [a, b, c] [da, db, dc]).getD
        (myTapeDelay N).outputIndex (0, 0)) = _
  rw [fwdNodes_delay]
  have hW : ([(a, da), (b, db), (c, dc)] ++ chainFwd a da N).length = 3 + 2 * N := by
    simp [chainFwd_length]
    omega
  have hout : ((([(a, da), (b, db), (c, dc)] ++ chainFwd a da N) ++
      bodyFwd a b c da db dc)).getD (myTapeDelay N).outputIndex (0, 0) =
      (a*a + c*c + 2*a*b + c,
        da*a + a*da + (dc*c + c*dc) + ((0*a + 2*da)*b + 2*a*db) + dc) := by
    show ((([(a, da), (b, db), (c, dc)] ++ chainFwd a da N) ++
      bodyFwd a b c da db dc)).getD (10 + 2 * N) (0, 0) = _
    rw [show 10 + 2 * N = ([(a, da), (b, db), (c, dc)] ++ chainFwd a da N).length + 7 from by
      rw [hW]; omega]
    rw [getD_off]
    rfl
  rw [hout]

theorem sweepN_succ (nodes : List Op) (vals adj : List ℚ) (n : Nat) :
    sweepN nodes vals adj (n + 1) = sweepN nodes vals (adjStep nodes vals adj n) n := rfl

theorem adjStep_const (nodes : List Op) (vals adj : List ℚ) (idx : Nat) (q : ℚ)
    (h : nodes.getD idx (.const 0) = .const q) :
    adjStep nodes vals adj idx = adj := by
  unfold adjStep
  rw [h]

theorem adjStep_input (nodes : List Op) (vals adj : List ℚ) (idx i : Nat)
    (h : nodes.getD idx (.const 0) = .input i) :
    adjStep nodes vals adj idx = adj := by
  unfold adjStep
  rw [h]

theorem adjStep_add (nodes : List Op) (vals adj : List ℚ) (idx a b : Nat)
    (h : nodes.getD idx (.const 0) = .add a b) :
    adjStep nodes vals adj idx =
      (adj.set a (adj.getD a 0 + adj.getD idx 0)).set b
        ((adj.set a (adj.getD a 0 + adj.getD idx 0)).getD b 0 + adj.getD idx 0) := by
  unfold adjStep
  rw [h]

theorem adjStep_mul (nodes : List Op) (vals adj : List ℚ) (idx a b : Nat)
    (h : nodes.getD idx (.const 0) = .mul a b) :
    adjStep nodes vals adj idx =
      (adj.set a (adj.getD a 0 + adj.getD idx 0 * vals.getD b 0)).set b
        ((adj.set a (adj.getD a 0 + adj.getD idx 0 * vals.getD b 0)).getD b 0 +
          adj.getD idx 0 * vals.getD a 0) := by
  unfold adjStep
  rw [h]

theorem inputsChain_length (N : Nat) :
    (inputNodes3 ++ delayChain N).length = 3 + 2 * N := by
  simp [inputNodes3, delayChain_length]
  omega

theorem delayChain_getD (N : Nat) : ∀ j, j < N →
    (delayChain N).getD (2 * j) (.const 0) = .const 0 ∧
    (delayChain N).getD (2 * j + 1) (.const 0) = .add (x0idx j) (3 + 2 * j) := by
  induction N with
  | zero => intro j h; exact absurd h (Nat.not_lt_zero j)
  | succ k ih =>
      intro j hj
      rw [delayChain]
      have hlen := delayChain_length k
      by_cases h : j < k
      · constructor
        · rw [List.getD_append _ _ _ _ (by omega)]
          exact (ih j h).1
        · rw [List.getD_append _ _ _ _ (by omega)]
          exact (ih j h).2
      · have hjk : j = k := by omega
        subst hjk
        constructor
        · rw [show 2 * j = (delayChain j).length + 0 from by simp [hlen], getD_off]
          rfl
        · rw [show 2 * j + 1 = (delayChain j).length + 1 from by simp [hlen], getD_off]
          rfl

theorem nodes_delay_getD_input (N : Nat) (i : Nat) (h : i < 3) :
    (myTapeDelay N).nodes.getD i (.const 0) = .input i := by
  show ((inputNodes3 ++ delayChain N) ++ traceBody (x0idx N) (3 + 2 * N)).getD i (.const 0) = _
  rw [List.getD_append _ _ _ _ (by rw [inputsChain_length]; omega)]
  rw [List.getD_append _ _ _ _ (by simp [inputNodes3]; omega)]
  interval_cases i <;> rfl

theorem nodes_delay_getD_chainConst (N j : Nat) (h : j < N) :
    (myTapeDelay N).nodes.getD (3 + 2 * j) (.const 0) = .const 0 := by
  show ((inputNodes3 ++ delayChain N) ++ traceBody (x0idx N) (3 + 2 * N)).getD (3 + 2 * j)
      (.const 0) = _
  rw [List.getD_append _ _ _ _ (by rw [inputsChain_length]; omega)]
  rw [show 3 + 2 * j = inputNodes3.length + 2 * j from rfl, getD_off]
  exact (delayChain_getD N j h).1

theorem nodes_delay_getD_chainAdd (N j : Nat) (h : j < N) :
    (myTapeDelay N).nodes.getD (4 + 2 * j) (.const 0) = .add (x0idx j) (3 + 2 * j) := by
  show ((inputNodes3 ++ delayChain N) ++ traceBody (x0idx N) (3 + 2 * N)).getD (4 + 2 * j)
      (.const 0) = _
  rw [List.getD_append _ _ _ _ (by rw [inputsChain_length]; omega)]
  rw [show 4 + 2 * j = inputNodes3.length + (2 * j + 1) from by simp [inputNodes3]; omega,
    getD_off]
  exact (delayChain_getD N j h).2

theorem nodes_delay_getD_body (N k : Nat) :
    (myTapeDelay N).nodes.getD ((3 + 2 * N) + k) (.const 0) =
      (traceBody (x0idx N) (3 + 2 * N)).getD k (.const 0) := by
  show ((inputNodes3 ++ delayChain N) ++ traceBody (x0idx N) (3 + 2 * N)).getD ((3 + 2 * N) + k)
      (.const 0) = _
  rw [show (3 + 2 * N) + k = (inputNodes3 ++ delayChain N).length + k from by
    rw [inputsChain_length], getD_off]

theorem getD_off' {α : Type} (V W : List α) (d : α) (n k : Nat) (h : V.length = n) :
    (V ++ W).getD (n + k) d = W.getD k d := by
  rw [← h, getD_off]

theorem set_off' {α : Type} (V W : List α) (v : α) (n k : Nat) (h : V.length = n) :
    (V ++ W).set (n + k) v = V ++ W.set k v := by
  rw [← h, set_off]

theorem getD_len' {α : Type} (V W : List α) (d : α) (n : Nat) (h : V.length = n) :
    (V ++ W).getD n d = W.getD 0 d := by
  rw [← h, getD_at_len]

theorem set_len' {α : Type} (V W : List α) (v : α) (n : Nat) (h : V.length = n) :
    (V ++ W).set n v = V ++ W.set 0 v := by
  rw [← h, set_at_len]

theorem getD_lt' {α : Type} (V W : List α) (d : α) (i n : Nat)
    (h : V.length = n) (hi : i < n) :
    (V ++ W).getD i d = V.getD i d :=
  List.getD_append _ _ _ _ (by rw [h]; exact hi)

theorem set_lt' {α : Type} (V W : List α) (v : α) (i n : Nat)
    (h : V.length = n) (hi : i < n) :
    (V ++ W).set i v = V.set i v ++ W :=
  List.set_append_left _ _ (by rw [h]; exact hi)

theorem sweepN_body (nodes : List Op) (vals A : List ℚ) (p L : Nat) (a b c : ℚ)
    (hL : A.length = L)
    (hn0 : nodes.getD L (.const 0) = .mul p p)
    (hn1 : nodes.getD (L + 1) (.const 0) = .mul 2 2)
    (hn2 : nodes.getD (L + 2) (.const 0) = .const 2)
    (hn3 : nodes.getD (L + 3) (.const 0) = .mul (L + 2) p)
    (hn4 : nodes.getD (L + 4) (.const 0) = .mul (L + 3) 1)
    (hn5 : nodes.getD (L + 5) (.const 0) = .add L (L + 1))
    (hn6 : nodes.getD (L + 6) (.const 0) = .add (L + 5) (L + 4))
    (hn7 : nodes.getD (L + 7) (.const 0) = .add (L + 6) 2)
    (hva : vals.getD p 0 = a) (hvb : vals.getD 1 0 = b) (hvc : vals.getD 2 0 = c)
    (hv2 : vals.getD (L + 2) 0 = 2) (hv3 : vals.getD (L + 3) 0 = 2 * a)
    (hA1 : A.getD 1 0 = 0) (hA2 : A.getD 2 0 = 0) (hAp : A.getD p 0 = 0)
    (hp1 : p ≠ 1) (hp2 : p ≠ 2) (hpL : p < L) (h2L : 2 < L) :
    sweepN nodes vals (A ++ [0, 0, 0, 0, 0, 0, 0, 1]) (L + 8) =
      sweepN nodes vals
        (((((A.set 2 1).set 1 (2 * a)).set p (b * 2)).set 2 (1 + c + c)).set p (b * 2 + a + a)
          ++ [1, 1, b * a, b, 1, 1, 1, 1]) L := by
  subst hL
  have hA1len : ((A.set 2 1 : List ℚ)).length = A.length := by simp
  have hA2len : (((A.set 2 1).set 1 (2 * a) : List ℚ)).length = A.length := by simp
  have hA3len : ((((A.set 2 1).set 1 (2 * a)).set p (b * 2) : List ℚ)).length = A.length := by
    simp
  have hA4len :
      (((((A.set 2 1).set 1 (2 * a)).set p (b * 2)).set 2 (1 + c + c) : List ℚ)).length =
        A.length := by simp
  have s7 : adjStep nodes vals (A ++ [(0 : ℚ), 0, 0, 0, 0, 0, 0, 1]) (A.length + 7) =
      A.set 2 1 ++ [0, 0, 0, 0, 0, 0, 1, 1] := by
    rw [adjStep_add nodes vals _ _ _ _ hn7]
    rw [getD_off]
    rw [getD_off]
    rw [show ([0, 0, 0, 0, 0, 0, 0, 1] : List ℚ).getD 6 0 = 0 from rfl,
      show ([0, 0, 0, 0, 0, 0, 0, 1] : List ℚ).getD 7 0 = 1 from rfl]
    rw [set_off]
    rw [show ([0, 0, 0, 0, 0, 0, 0, 1] : List ℚ).set 6 (0 + 1) = [0, 0, 0, 0, 0, 0, 0 + 1, 1]
      from rfl]
    rw [List.getD_append _ _ _ _ (show 2 < A.length by omega), hA2]
    rw [List.set_append_left _ _ (show 2 < A.length by omega)]
    simp only [zero_add]
  have s6 : adjStep nodes vals (A.set 2 1 ++ [(0 : ℚ), 0, 0, 0, 0, 0, 1, 1]) (A.length + 6) =
      A.set 2 1 ++ [0, 0, 0, 0, 1, 1, 1, 1] := by
    rw [adjStep_add nodes vals _ _ _ _ hn6]
    rw [getD_off' _ _ _ _ _ hA1len]
    rw [getD_off' _ _ _ _ _ hA1len]
    rw [show ([0, 0, 0, 0, 0, 0, 1, 1] : List ℚ).getD 5 0 = 0 from rfl,
      show ([0, 0, 0, 0, 0, 0, 1, 1] : List ℚ).getD 6 0 = 1 from rfl]
    rw [set_off' _ _ _ _ _ hA1len]
    rw [show ([0, 0, 0, 0, 0, 0, 1, 1] : List ℚ).set 5 (0 + 1) = [0, 0, 0, 0, 0, 0 + 1, 1, 1]
      from rfl]
    rw [getD_off' _ _ _ _ _ hA1len]
    rw [show ([0, 0, 0, 0, 0, 0 + 1, 1, 1] : List ℚ).getD 4 0 = 0 from rfl]
    rw [set_off' _ _ _ _ _ hA1len]
    rw [show ([0, 0, 0, 0, 0, 0 + 1, 1, 1] : List ℚ).set 4 (0 + 1) =
      [0, 0, 0, 0, 0 + 1, 0 + 1, 1, 1] from rfl]
    simp only [zero_add]
  have s5 : adjStep nodes vals (A.set 2 1 ++ [(0 : ℚ), 0, 0, 0, 1, 1, 1, 1]) (A.length + 5) =
      A.set 2 1 ++ [1, 1, 0, 0, 1, 1, 1, 1] := by
    rw [adjStep_add nodes vals _ _ _ _ hn5]
    rw [getD_off' _ _ _ _ _ hA1len]
    rw [getD_len' _ _ _ _ hA1len]
    rw [show ([0, 0, 0, 0, 1, 1, 1, 1] : List ℚ).getD 0 0 = 0 from rfl,
      show ([0, 0, 0, 0, 1, 1, 1, 1] : List ℚ).getD 5 0 = 1 from rfl]
    rw [set_len' _ _ _ _ hA1len]
    rw [show ([0, 0, 0, 0, 1, 1, 1, 1] : List ℚ).set 0 (0 + 1) = [0 + 1, 0, 0, 0, 1, 1, 1, 1]
      from rfl]
    rw [getD_off' _ _ _ _ _ hA1len]
    rw [show ([0 + 1, 0, 0, 0, 1, 1, 1, 1] : List ℚ).getD 1 0 = 0 from rfl]
    rw [set_off' _ _ _ _ _ hA1len]
    rw [show ([0 + 1, 0, 0, 0, 1, 1, 1, 1] : List ℚ).set 1 (0 + 1) =
      [0 + 1, 0 + 1, 0, 0, 1, 1, 1, 1] from rfl]
    simp only [zero_add]
  have s4 : adjStep nodes vals (A.set 2 1 ++ [(1 : ℚ), 1, 0, 0, 1, 1, 1, 1]) (A.length + 4) =
      (A.set 2 1).set 1 (2 * a) ++ [1, 1, 0, b, 1, 1, 1, 1] := by
    rw [adjStep_mul nodes vals _ _ _ _ hn4]
    rw [getD_off' _ _ _ _ _ hA1len]
    rw [getD_off' _ _ _ _ _ hA1len]
    rw [show ([1, 1, 0, 0, 1, 1, 1, 1] : List ℚ).getD 3 0 = 0 from rfl,
      show ([1, 1, 0, 0, 1, 1, 1, 1] : List ℚ).getD 4 0 = 1 from rfl]
    rw [hvb]
    rw [set_off' _ _ _ _ _ hA1len]
    rw [show ([1, 1, 0, 0, 1, 1, 1, 1] : List ℚ).set 3 (0 + 1 * b) =
      [1, 1, 0, 0 + 1 * b, 1, 1, 1, 1] from rfl]
    rw [getD_lt' _ _ _ _ _ hA1len (show 1 < A.length by omega)]
    rw [getD_set_ne _ _ _ _ _ (show (2 : Nat) ≠ 1 by decide), hA1]
    rw [hv3]
    rw [set_lt' _ _ _ _ _ hA1len (show 1 < A.length by omega)]
    simp only [zero_add, one_mul]
  have s3 : adjStep nodes vals
      ((A.set 2 1).set 1 (2 * a) ++ [(1 : ℚ), 1, 0, b, 1, 1, 1, 1]) (A.length + 3) =
      ((A.set 2 1).set 1 (2 * a)).set p (b * 2) ++ [1, 1, b * a, b, 1, 1, 1, 1] := by
    rw [adjStep_mul nodes vals _ _ _ _ hn3]
    rw [getD_off' _ _ _ _ _ hA2len]
    rw [getD_off' _ _ _ _ _ hA2len]
    rw [show ([1, 1, 0, b, 1, 1, 1, 1] : List ℚ).getD 2 0 = 0 from rfl,
      show ([1, 1, 0, b, 1, 1, 1, 1] : List ℚ).getD 3 0 = b from rfl]
    rw [hva]
    rw [set_off' _ _ _ _ _ hA2len]
    rw [show ([1, 1, 0, b, 1, 1, 1, 1] : List ℚ).set 2 (0 + b * a) =
      [1, 1, 0 + b * a, b, 1, 1, 1, 1] from rfl]
    rw [getD_lt' _ _ _ _ _ hA2len hpL]
    rw [getD_set_ne _ _ _ _ _ (Ne.symm hp1), getD_set_ne _ _ _ _ _ (Ne.symm hp2), hAp]
    rw [hv2]
    rw [set_lt' _ _ _ _ _ hA2len hpL]
    simp only [zero_add]
  have s1 : adjStep nodes vals
      (((A.set 2 1).set 1 (2 * a)).set p (b * 2) ++ [(1 : ℚ), 1, b * a, b, 1, 1, 1, 1])
      (A.length + 1) =
      (((A.set 2 1).set 1 (2 * a)).set p (b * 2)).set 2 (1 + c + c)
        ++ [1, 1, b * a, b, 1, 1, 1, 1] := by
    rw [adjStep_mul nodes vals _ _ _ _ hn1]
    rw [getD_off' _ _ _ _ _ hA3len]
    rw [show ([1, 1, b * a, b, 1, 1, 1, 1] : List ℚ).getD 1 0 = 1 from rfl]
    rw [hvc]
    rw [getD_lt' _ _ _ _ _ hA3len (show 2 < A.length by omega)]
    rw [getD_set_ne _ _ _ _ _ hp2]
    rw [getD_set_ne _ _ _ _ _ (show (1 : Nat) ≠ 2 by decide)]
    rw [getD_set_self _ _ _ _ (show 2 < A.length by omega)]
    rw [set_lt' _ _ _ _ _ hA3len (show 2 < A.length by omega)]
    rw [getD_lt' _ _ _ _ _
      (show ((((A.set 2 1).set 1 (2 * a)).set p (b * 2)).set 2 (1 + 1 * c) : List ℚ).length =
        A.length by simp)
      (show 2 < A.length by omega)]
    rw [getD_set_self _ _ _ _ (by simp; omega)]
    rw [set_lt' _ _ _ _ _
      (show ((((A.set 2 1).set 1 (2 * a)).set p (b * 2)).set 2 (1 + 1 * c) : List ℚ).length =
        A.length by simp)
      (show 2 < A.length by omega)]
    rw [List.set_set]
    simp only [one_mul]
  have s0 : adjStep nodes vals
      ((((A.set 2 1).set 1 (2 * a)).set p (b * 2)).set 2 (1 + c + c)
        ++ [(1 : ℚ), 1, b * a, b, 1, 1, 1, 1]) A.length =
      ((((A.set 2 1).set 1 (2 * a)).set p (b * 2)).set 2 (1 + c + c)).set p (b * 2 + a + a)
        ++ [1, 1, b * a, b, 1, 1, 1, 1] := by
    rw [adjStep_mul nodes vals _ _ _ _ hn0]
    rw [getD_len' _ _ _ _ hA4len]
    rw [show ([1, 1, b * a, b, 1, 1, 1, 1] : List ℚ).getD 0 0 = 1 from rfl]
    rw [hva]
    rw [getD_lt' _ _ _ _ _ hA4len hpL]
    rw [getD_set_ne _ _ _ _ _ (Ne.symm hp2)]
    rw [getD_set_self _ _ _ _ (by simp; omega)]
    rw [set_lt' _ _ _ _ _ hA4len hpL]
    rw [getD_lt' _ _ _ _ _
      (show (((((A.set 2 1).set 1 (2 * a)).set p (b * 2)).set 2 (1 + c + c)).set p
        (b * 2 + 1 * a) : List ℚ).length = A.length by simp)
      hpL]
    rw [getD_set_self _ _ _ _ (by simp; omega)]
    rw [set_lt' _ _ _ _ _
      (show (((((A.set 2 1).set 1 (2 * a)).set p (b * 2)).set 2 (1 + c + c)).set p
        (b * 2 + 1 * a) : List ℚ).length = A.length by simp)
      hpL]
    rw [List.set_set]
    simp only [one_mul]
  rw [show A.length + 8 = (A.length + 7) + 1 from by omega, sweepN_succ, s7]
  rw [show A.length + 7 = (A.length + 6) + 1 from by omega, sweepN_succ, s6]
  rw [show A.length + 6 = (A.length + 5) + 1 from by omega, sweepN_succ, s5]
  rw [show A.length + 5 = (A.length + 4) + 1 from by omega, sweepN_succ, s4]
  rw [show A.length + 4 = (A.length + 3) + 1 from by omega, sweepN_succ, s3]
  rw [show A.length + 3 = (A.length + 2) + 1 from by omega, sweepN_succ,
    adjStep_const nodes vals _ _ _ hn2]
  rw [show A.length + 2 = (A.length + 1) + 1 from by omega, sweepN_succ, s1]
  rw [sweepN_succ, s0]

/-- The adjoint prefix over the inputs-plus-chain region after the body sweep:
the gradient components sit at the input nodes `1` and `2` and at the
placeholder currently bound to `x[0]` (`x0idx k`); everything else is zero. -/
def adjPre (gp g1 g2 : ℚ) : Nat → List ℚ
  | 0 => [gp, g1, g2]
  | k + 1 => ([0, g1, g2] ++ List.replicate (2 * k + 1) 0) ++ [gp]

theorem five_sets (Z : List ℚ) (q : Nat) (hq2 : q ≠ 2) (u1 u2 g1 g2 gp : ℚ) :
    ((((Z.set 2 u1).set 1 g1).set q u2).set 2 g2).set q gp =
      ((Z.set 2 g2).set 1 g1).set q gp := by
  rw [List.set_comm _ _ _ hq2, List.set_set,
    List.set_comm _ _ _ (show (1 : Nat) ≠ 2 by decide), List.set_set]

theorem three_sets_replicate (N : Nat) (g1 g2 gp : ℚ) :
    (((List.replicate (3 + 2 * N) (0 : ℚ)).set 2 g2).set 1 g1).set (x0idx N) gp =
      adjPre gp g1 g2 N := by
  cases N with
  | zero => rfl
  | succ k =>
      rw [x0idx]
      rw [show 3 + 2 * (k + 1) = ((2 * k + 2) + 2) + 1 from by omega, List.replicate_succ]
      rw [show (2 * k + 2) + 2 = ((2 * k + 2) + 1) + 1 from by omega, List.replicate_succ,
        List.replicate_succ]
      rw [show 2 * k + 2 = (2 * k + 1) + 1 from by omega, List.replicate_succ']
      show ([0, g1, g2] ++ (List.replicate (2 * k + 1) 0 ++ [0])).set (4 + 2 * k) gp = _
      rw [← List.append_assoc]
      rw [set_len' _ _ _ _ (show (([0, g1, g2] : List ℚ) ++
        List.replicate (2 * k + 1) 0).length = 4 + 2 * k from by simp; omega)]
      rw [show ([0] : List ℚ).set 0 gp = [gp] from rfl]
      rfl

theorem sweepN_chain (N : Nat) (vals : List ℚ) (gp g1 g2 : ℚ) :
    ∀ k, k ≤ N → ∀ rest : List ℚ,
      sweepN (myTapeDelay N).nodes vals (adjPre gp g1 g2 k ++ rest) (3 + 2 * k) =
        [gp, g1, g2] ++ (List.replicate (2 * k) gp ++ rest) := by
  intro k
  induction k with
  | zero =>
      intro _ rest
      have hsw : ∀ adj, sweepN (myTapeDelay N).nodes vals adj 3 =
          adjStep (myTapeDelay N).nodes vals
            (adjStep (myTapeDelay N).nodes vals
              (adjStep (myTapeDelay N).nodes vals adj 2) 1) 0 := fun adj => rfl
      rw [show 3 + 2 * 0 = 3 from by omega, hsw]
      rw [adjStep_input _ _ _ _ _ (nodes_delay_getD_input N 2 (by omega))]
      rw [adjStep_input _ _ _ _ _ (nodes_delay_getD_input N 1 (by omega))]
      rw [adjStep_input _ _ _ _ _ (nodes_delay_getD_input N 0 (by omega))]
      rfl
  | succ k ih =>
      intro hk rest
      rw [show 3 + 2 * (k + 1) = ((3 + 2 * k) + 1) + 1 from by omega, sweepN_succ, sweepN_succ]
      rw [show (3 + 2 * k) + 1 = 4 + 2 * k from by omega]
      have hstep : adjStep (myTapeDelay N).nodes vals (adjPre gp g1 g2 (k + 1) ++ rest)
          (4 + 2 * k) = adjPre gp g1 g2 k ++ ([gp, gp] ++ rest) := by
        rw [adjStep_add _ _ _ _ _ _ (nodes_delay_getD_chainAdd N k (by omega))]
        cases k with
        | zero =>
            rw [show (adjPre gp g1 g2 (0 + 1) ++ rest).getD (4 + 2 * 0) 0 = gp from rfl]
            rw [show (adjPre gp g1 g2 (0 + 1) ++ rest).getD (x0idx 0) 0 = 0 from rfl]
            rw [show (adjPre gp g1 g2 (0 + 1) ++ rest).set (x0idx 0) (0 + gp) =
              [0 + gp, g1, g2, 0, gp] ++ rest from rfl]
            rw [show (([0 + gp, g1, g2, 0, gp] : List ℚ) ++ rest).getD (3 + 2 * 0) 0 = 0
              from rfl]
            rw [show (([0 + gp, g1, g2, 0, gp] : List ℚ) ++ rest).set (3 + 2 * 0) (0 + gp) =
              [0 + gp, g1, g2, 0 + gp, gp] ++ rest from rfl]
            show ([0 + gp, g1, g2, 0 + gp, gp] : List ℚ) ++ rest =
              [gp, g1, g2] ++ ([gp, gp] ++ rest)
            rw [zero_add]
            rfl
        | succ m =>
            rw [x0idx]
            rw [show adjPre gp g1 g2 (m + 1 + 1) =
              ([0, g1, g2] ++ List.replicate (2 * (m + 1) + 1) 0) ++ [gp] from rfl]
            rw [show 2 * (m + 1) + 1 = (2 * m + 1) + 2 from by omega, List.replicate_add]
            rw [show List.replicate 2 (0 : ℚ) = [0, 0] from rfl]
            rw [← List.append_assoc ([0, g1, g2] : List ℚ)
              (List.replicate (2 * m + 1) 0) [0, 0]]
            rw [List.append_assoc (((([0, g1, g2] : List ℚ) ++
              List.replicate (2 * m + 1) 0) ++ [0, 0])) [gp] rest]
            have hV2 : ((([0, g1, g2] : List ℚ) ++ List.replicate (2 * m + 1) 0)).length =
                4 + 2 * m := by
              simp
              omega
            have hV2' : ((([0, g1, g2] : List ℚ) ++ List.replicate (2 * m + 1) 0) ++
                [(0 : ℚ), 0]).length = 4 + 2 * (m + 1) := by
              simp
              omega
            rw [getD_len' _ _ _ _ hV2']
            rw [show (([gp] : List ℚ) ++ rest).getD 0 0 = gp from rfl]
            rw [getD_lt' _ _ _ _ _ hV2' (by omega)]
            rw [show 4 + 2 * m = (([0, g1, g2] : List ℚ) ++
              List.replicate (2 * m + 1) 0).length from hV2.symm]
            rw [getD_at_len]
            rw [show (([0, 0] : List ℚ)).getD 0 0 = 0 from rfl]
            rw [set_lt' _ _ _ _ _ hV2' (by rw [hV2]; omega)]
            rw [set_at_len]
            rw [show (([0, 0] : List ℚ)).set 0 (0 + gp) = [0 + gp, 0] from rfl]
            have hV3 : ((([0, g1, g2] : List ℚ) ++ List.replicate (2 * m + 1) 0) ++
                [0 + gp, (0 : ℚ)]).length = 4 + 2 * (m + 1) := by
              simp
              omega
            rw [show 3 + 2 * (m + 1) = (([0, g1, g2] : List ℚ) ++
              List.replicate (2 * m + 1) 0).length + 1 from by rw [hV2]; omega]
            rw [getD_lt' _ _ _ _ _ hV3 (by rw [hV2]; omega)]
            rw [getD_off]
            rw [show (([0 + gp, 0] : List ℚ)).getD 1 0 = 0 from rfl]
            rw [set_lt' _ _ _ _ _ hV3 (by rw [hV2]; omega)]
            rw [set_off]
            rw [show (([0 + gp, 0] : List ℚ)).set 1 (0 + gp) = [0 + gp, 0 + gp] from rfl]
            rw [show adjPre gp g1 g2 (m + 1) =
              ([0, g1, g2] ++ List.replicate (2 * m + 1) 0) ++ [gp] from rfl]
            simp [List.append_assoc]
      rw [hstep]
      rw [adjStep_const _ _ _ _ _ (nodes_delay_getD_chainConst N k (by omega))]
      rw [ih (by omega) ([gp, gp] ++ rest)]
      rw [show 2 * (k + 1) = 2 * k + 2 from by omega, List.replicate_add]
      rw [show List.replicate 2 gp = [gp, gp] from rfl]
      simp [List.append_assoc]

theorem x0idx_ne_one (N : Nat) : x0idx N ≠ 1 := by
  cases N with
  | zero => decide
  | succ k => rw [x0idx]; omega

theorem x0idx_ne_two (N : Nat) : x0idx N ≠ 2 := by
  cases N with
  | zero => decide
  | succ k => rw [x0idx]; omega

theorem sweep_delay (N : Nat) (a b c : ℚ) :
    sweepN (myTapeDelay N).nodes (([a, b, c] ++ chainVals a N) ++ bodyVals a b c)
      (List.replicate (3 + 2 * N) (0 : ℚ) ++ [0, 0, 0, 0, 0, 0, 0, 1]) ((3 + 2 * N) + 8) =
      [b * 2 + a + a, 2 * a, 1 + c + c] ++
        (List.replicate (2 * N) (b * 2 + a + a) ++ [1, 1, b * a, b, 1, 1, 1, 1]) := by
  have hWlen : ([a, b, c] ++ chainVals a N).length = 3 + 2 * N := by
    simp [chainVals_length]
    omega
  have hb := nodes_delay_getD_body N
  have hn0 : (myTapeDelay N).nodes.getD (3 + 2 * N) (.const 0) =
      .mul (x0idx N) (x0idx N) := by
    rw [show 3 + 2 * N = (3 + 2 * N) + 0 from rfl, hb 0]; rfl
  have hn1 : (myTapeDelay N).nodes.getD ((3 + 2 * N) + 1) (.const 0) = .mul 2 2 := by
    rw [hb 1]; rfl
  have hn2 : (myTapeDelay N).nodes.getD ((3 + 2 * N) + 2) (.const 0) = .const 2 := by
    rw [hb 2]; rfl
  have hn3 : (myTapeDelay N).nodes.getD ((3 + 2 * N) + 3) (.const 0) =
      .mul ((3 + 2 * N) + 2) (x0idx N) := by
    rw [hb 3]; rfl
  have hn4 : (myTapeDelay N).nodes.getD ((3 + 2 * N) + 4) (.const 0) =
      .mul ((3 + 2 * N) + 3) 1 := by
    rw [hb 4]; rfl
  have hn5 : (myTapeDelay N).nodes.getD ((3 + 2 * N) + 5) (.const 0) =
      .add (3 + 2 * N) ((3 + 2 * N) + 1) := by
    rw [hb 5]; rfl
  have hn6 : (myTapeDelay N).nodes.getD ((3 + 2 * N) + 6) (.const 0) =
      .add ((3 + 2 * N) + 5) ((3 + 2 * N) + 4) := by
    rw [hb 6]; rfl
  have hn7 : (myTapeDelay N).nodes.getD ((3 + 2 * N) + 7) (.const 0) =
      .add ((3 + 2 * N) + 6) 2 := by
    rw [hb 7]; rfl
  have hva : ((([a, b, c] ++ chainVals a N) ++ bodyVals a b c)).getD (x0idx N) 0 = a := by
    rw [List.getD_append _ _ _ _ (by rw [hWlen]; exact x0idx_lt N)]
    exact chainVals_getD a b c N
  have hvb : ((([a, b, c] ++ chainVals a N) ++ bodyVals a b c)).getD 1 0 = b := by
    rw [List.getD_append _ _ _ _ (by rw [hWlen]; omega),
      List.getD_append _ _ _ _ (by norm_num)]
    rfl
  have hvc : ((([a, b, c] ++ chainVals a N) ++ bodyVals a b c)).getD 2 0 = c := by
    rw [List.getD_append _ _ _ _ (by rw [hWlen]; omega),
      List.getD_append _ _ _ _ (by norm_num)]
    rfl
  have hv2 : ((([a, b, c] ++ chainVals a N) ++ bodyVals a b c)).getD ((3 + 2 * N) + 2) 0 =
      2 := by
    rw [getD_off' _ _ _ _ _ hWlen]
    rfl
  have hv3 : ((([a, b, c] ++ chainVals a N) ++ bodyVals a b c)).getD ((3 + 2 * N) + 3) 0 =
      2 * a := by
    rw [getD_off' _ _ _ _ _ hWlen]
    rfl
  rw [sweepN_body (myTapeDelay N).nodes (([a, b, c] ++ chainVals a N) ++ bodyVals a b c)
    (List.replicate (3 + 2 * N) 0) (x0idx N) (3 + 2 * N) a b c (by simp)
    hn0 hn1 hn2 hn3 hn4 hn5 hn6 hn7 hva hvb hvc hv2 hv3
    (getD_replicate_zero _ _) (getD_replicate_zero _ _) (getD_replicate_zero _ _)
    (x0idx_ne_one N) (x0idx_ne_two N) (x0idx_lt N) (by omega)]
  rw [five_sets _ _ (x0idx_ne_two N)]
  rw [three_sets_replicate]
  exact sweepN_chain N _ _ _ _ N (le_refl N) _

theorem gradient_delay (N : Nat) (a b c : ℚ) :
    gradient (myTapeDelay N) [a, b, c] = .ok [b * 2 + a + a, 2 * a, 1 + c + c] := by
  have hcond : ([a, b, c] : List ℚ).length = (myTapeDelay N).inputCount := rfl
  rw [gradient, if_pos hcond]
  show Except.ok ((List.range (myTapeDelay N).inputCount).map fun i =>
      (sweepN (myTapeDelay N).nodes (evalNodes (myTapeDelay N).nodes [a, b, c])
        ((List.replicate (myTapeDelay N).nodes.length (0 : ℚ)).set
          (myTapeDelay N).outputIndex 1)
        (myTapeDelay N).nodes.length).getD i 0) = _
  rw [evalNodes_delay]
  rw [myTapeDelay_nodes_length]
  rw [show (myTapeDelay N).outputIndex = 10 + 2 * N from rfl]
  rw [show 11 + 2 * N = (3 + 2 * N) + 8 from by omega, List.replicate_add]
  rw [show 10 + 2 * N = (3 + 2 * N) + 7 from by omega]
  rw [set_off' _ _ _ _ _
    (show (List.replicate (3 + 2 * N) (0 : ℚ)).length = 3 + 2 * N from by simp)]
  rw [show (List.replicate 8 (0 : ℚ)).set 7 1 = [0, 0, 0, 0, 0, 0, 0, 1] from rfl]
  rw [sweep_delay]
  rw [show (myTapeDelay N).inputCount = 3 from rfl]
  rfl

theorem eval_reverse_delay (N : Nat) (a b c : ℚ) :
    ((evaluate (myTapeDelay N) [a, b, c]).bind fun p => reverse (myTapeDelay N) p.2 1) =
      .ok [b * 2 + a + a, 2 * a, 1 + c + c] := by
  rw [evaluate_delay]
  show reverse (myTapeDelay N) (([a, b, c] ++ chainVals a N) ++ bodyVals a b c) 1 = _
  have hlen : ((([a, b, c] ++ chainVals a N) ++ bodyVals a b c)).length =
      (myTapeDelay N).nodes.length := by
    rw [myTapeDelay_nodes_length]
    simp [chainVals_length, bodyVals]
    omega
  rw [reverse, if_pos hlen]
  show Except.ok ((List.range (myTapeDelay N).inputCount).map fun i =>
      (sweepN (myTapeDelay N).nodes (([a, b, c] ++ chainVals a N) ++ bodyVals a b c)
        ((List.replicate (myTapeDelay N).nodes.length (0 : ℚ)).set
          (myTapeDelay N).outputIndex 1)
        (myTapeDelay N).nodes.length).getD i 0) = _
  rw [myTapeDelay_nodes_length]
  rw [show (myTapeDelay N).outputIndex = 10 + 2 * N from rfl]
  rw [show 11 + 2 * N = (3 + 2 * N) + 8 from by omega, List.replicate_add]
  rw [show 10 + 2 * N = (3 + 2 * N) + 7 from by omega]
  rw [set_off' _ _ _ _ _
    (show (List.replicate (3 + 2 * N) (0 : ℚ)).length = 3 + 2 * N from by simp)]
  rw [show (List.replicate 8 (0 : ℚ)).set 7 1 = [0, 0, 0, 0, 0, 0, 0, 1] from rfl]
  rw [sweep_delay]
  rw [show (myTapeDelay N).inputCount = 3 from rfl]
  rfl

/-- The standard basis tangent seeds used by the demo's three forward calls. -/
def stdBasis3 : Fin 3 → List ℚ
  | ⟨0, _⟩ => [1, 0, 0]
  | ⟨1, _⟩ => [0, 1, 0]
  | ⟨2, _⟩ => [0, 0, 1]

theorem foldl_preserves_xp (L : List (DemoState → DemoState))
    (h : ∀ f ∈ L, ∀ s, (f s).xp = s.xp) :
    ∀ s0 : DemoState, (L.foldl (fun s f => f s) s0).xp = s0.xp := by
  induction L with
  | nil => intro s0; rfl
  | cons f rest ih =>
      intro s0
      rw [List.foldl_cons,
        ih (fun g hg => h g (List.mem_cons_of_mem f hg)),
        h f (List.mem_cons_self f rest)]

theorem demoSteps_preserve_xp :
    ∀ f ∈ demoSteps, ∀ s : DemoState, (f s).xp = s.xp := by
  intro f hf s
  fin_cases hf <;> rfl

/-! ### Claim theorems (part one) -/

/-- C3: for every tape and every input vector, the gradient convenience entry
point returns exactly the result of running the Evaluator once on those inputs
and then the Reverse Accumulator once with output weight 1. -/
theorem gradient_refines_evaluate_reverse (t : Tape) (xs : List ℚ) :
    gradient t xs = (evaluate t xs).bind fun p => reverse t p.2 1 := by
  by_cases h : xs.length = t.inputCount
  · simp [gradient, evaluate, reverse, h, evalNodes_length, Except.bind]
  · simp [gradient, evaluate, h, Except.bind]

/-- C5: with the tape sealed and the inputs fixed, every one of `k` repeated
calls of the gradient entry point returns the identical result; the engine
threads no hidden mutable state between calls. -/
theorem gradient_repeated_calls_identical (t : Tape) (xs : List ℚ) (k : Nat) :
    gradientCalls t xs k = List.replicate k (gradient t xs) := by
  induction k with
  | zero => rfl
  | succ m ih =>
      rw [gradientCalls, List.range_succ, List.map_append, List.replicate_succ']
      rw [gradientCalls] at ih
      rw [ih]
      rfl

/-- C6: a derivative or evaluation call given an input vector or tangent
vector whose length differs from the tape's declared input count fails with
`DimensionMismatch` and returns no result. -/
theorem dimension_mismatch_fails (t : Tape) (xs dxs : List ℚ) :
    (xs.length ≠ t.inputCount →
      evaluate t xs = .error .DimensionMismatch ∧
      forward t xs dxs = .error .DimensionMismatch ∧
      gradient t xs = .error .DimensionMismatch) ∧
    (dxs.length ≠ t.inputCount →
      forward t xs dxs = .error .DimensionMismatch) := by
  constructor
  · intro h
    exact ⟨by simp [evaluate, h], by simp [forward, h], by simp [gradient, h]⟩
  · intro h
    by_cases hx : xs.length = t.inputCount <;> simp [forward, hx, h]

/-- Witness for C6 at the demo tape: a length-2 input vector and a length-2
tangent vector are rejected. -/
theorem dimension_mismatch_fails_witness :
    evaluate myTape [1, 1] = .error .DimensionMismatch ∧
    forward myTape [1, 1, 1] [1, 0] = .error .DimensionMismatch :=
  ⟨((dimension_mismatch_fails myTape [1, 1] [1, 0]).1 (by decide)).1,
   (dimension_mismatch_fails myTape [1, 1, 1] [1, 0]).2 (by decide)⟩

/-- C7: sealing a trace in which zero elementary operations were recorded
beyond the input placeholders fails with `TraceError` and produces no tape. -/
theorem empty_trace_seal_fails (n out : Nat) :
    endTrace n (beginTrace n) out = .error .TraceError := by
  rw [endTrace]
  split
  · next hcond =>
      exfalso
      obtain ⟨-, h2, -⟩ := hcond
      simp [beginTrace] at h2
  · rfl

/-- C8: appending a node whose operand indices all lie strictly below the
current tape length preserves the DAG invariant, and a successfully sealed
tape carries exactly the input count and output index it was sealed with,
together with a well-formed node list. -/
theorem tape_dag_invariant :
    (∀ (nodes : List Op) (op : Op),
        (∀ j ∈ opOperands op, j < nodes.length) →
        wellFormed nodes → wellFormed (recordOp nodes op).2) ∧
    (∀ (n : Nat) (nodes : List Op) (out : Nat) (t : Tape),
        endTrace n nodes out = .ok t →
        t.inputCount = n ∧ t.outputIndex = out ∧ wellFormed t.nodes) := by
  constructor
  · intro nodes op hops hwf
    have hsingle : wfFrom [op] nodes.length = true := by
      simp [wfFrom, List.all_eq_true]
      intro j hj
      exact hops j hj
    have : wellFormedB (nodes ++ [op]) = true := by
      rw [wellFormedB, wfFrom_append, Nat.zero_add, Bool.and_eq_true]
      exact ⟨hwf, hsingle⟩
    exact this
  · intro n nodes out t h
    rw [endTrace] at h
    split at h
    · next hcond =>
        cases h
        exact ⟨rfl, rfl, hcond.2.2⟩
    · cases h

/-- Witness for C8: recording `x*y` on the three input placeholders keeps the
trace well-formed, and the demo tape seals to itself with input count 3 and
output index 10. -/
theorem tape_dag_invariant_witness :
    wellFormed (recordOp inputNodes3 (.mul 0 1)).2 ∧
    (myTape.inputCount = 3 ∧ myTape.outputIndex = 10 ∧ wellFormed myTape.nodes) :=
  ⟨tape_dag_invariant.1 inputNodes3 (.mul 0 1) (by decide) (by rfl),
   tape_dag_invariant.2 3 myTape.nodes 10 myTape (by rfl)⟩

/-- C9: the output value returned by a forward-mode call does not depend on
the tangent seed: two forward calls over the same tape and inputs with
different tangent vectors return the same output value. -/
theorem forward_value_tangent_independent (t : Tape) (xs d1 d2 : List ℚ)
    (h1 : d1.length = t.inputCount) (h2 : d2.length = t.inputCount) :
    (forward t xs d1).map Prod.fst = (forward t xs d2).map Prod.fst := by
  by_cases hx : xs.length = t.inputCount
  · rw [forward, forward, if_pos hx, if_pos hx, if_pos h1, if_pos h2]
    show Except.ok ((fwdNodes t.nodes xs d1).getD t.outputIndex ((0 : ℚ), (0 : ℚ))).1 =
      Except.ok ((fwdNodes t.nodes xs d2).getD t.outputIndex ((0 : ℚ), (0 : ℚ))).1
    rw [fwdNodes_value, fwdNodes_value]
  · rw [forward, forward, if_neg hx, if_neg hx]

/-- Witness for C9 at the demo's first two forward calls: seeds `(1,0,0)` and
`(0,1,0)` give the same output value. -/
theorem forward_value_tangent_independent_witness :
    (forward myTape [1, 1, 1] [1, 0, 0]).map Prod.fst =
      (forward myTape [1, 1, 1] [0, 1, 0]).map Prod.fst :=
  forward_value_tangent_independent myTape [1, 1, 1] [1, 0, 0] [0, 1, 0]
    (by decide) (by decide)

/-- C10: no derivative call of the demo modifies the caller-supplied input
vector: after any number of the demo's derivative calls `xp` still holds
`(1,1,1)`, so each printed analytic comparison `2*(xp[0]+xp[1])`, `2*xp[0]`,
`2*xp[2]+1` still evaluates to `(4, 2, 3)`. -/
theorem derivative_calls_preserve_inputs (k : Nat) :
    (demoRun k).xp = demoInit.xp ∧
    2 * ((demoRun k).xp.getD 0 0 + (demoRun k).xp.getD 1 0) = 4 ∧
    2 * (demoRun k).xp.getD 0 0 = 2 ∧
    2 * (demoRun k).xp.getD 2 0 + 1 = 3 := by
  have hxp : (demoRun k).xp = demoInit.xp := by
    rw [demoRun]
    exact foldl_preserves_xp _
      (fun f hf => demoSteps_preserve_xp f (List.take_subset _ _ hf)) demoInit
  refine ⟨hxp, ?_, ?_, ?_⟩ <;> rw [hxp] <;> norm_num [demoInit]

/-- C1: for the reference function `f(x,y,z) = x² + z² + 2xy + z`, the gradient
returned by every derivative entry point — the gradient driver, the
evaluate-then-reverse path with weight 1, and the three basis-seeded forward
calls — equals `(2(x+y), 2x, 2z+1)` at every input vector; in particular it is
`(4, 2, 3)` at `(1,1,1)` and `(2, 4, 7)` at `(2,-1,3)`. -/
theorem myfunction_gradient_correct :
    (∀ a b c : ℚ,
      gradient myTape [a, b, c] = .ok [2 * (a + b), 2 * a, 2 * c + 1] ∧
      ((evaluate myTape [a, b, c]).bind fun p => reverse myTape p.2 1) =
        .ok [2 * (a + b), 2 * a, 2 * c + 1] ∧
      (forward myTape [a, b, c] [1, 0, 0]).map Prod.snd = .ok (2 * (a + b)) ∧
      (forward myTape [a, b, c] [0, 1, 0]).map Prod.snd = .ok (2 * a) ∧
      (forward myTape [a, b, c] [0, 0, 1]).map Prod.snd = .ok (2 * c + 1)) ∧
    gradient myTape [1, 1, 1] = .ok [4, 2, 3] ∧
    gradient myTape [2, -1, 3] = .ok [2, 4, 7] := by
  have hT : myTape = myTapeDelay 0 := rfl
  have hg : ∀ a b c : ℚ,
      gradient myTape [a, b, c] = .ok [2 * (a + b), 2 * a, 2 * c + 1] := by
    intro a b c
    rw [hT, gradient_delay, show b * 2 + a + a = 2 * (a + b) from by ring,
      show 1 + c + c = 2 * c + 1 from by ring]
  refine ⟨fun a b c => ⟨hg a b c, ?_, ?_, ?_, ?_⟩, ?_, ?_⟩
  · rw [hT, eval_reverse_delay, show b * 2 + a + a = 2 * (a + b) from by ring,
      show 1 + c + c = 2 * c + 1 from by ring]
  · rw [hT, forward_delay]
    simp only [Except.map]
    congr 1
    ring
  · rw [hT, forward_delay]
    simp only [Except.map]
    congr 1
    ring
  · rw [hT, forward_delay]
    simp only [Except.map]
    congr 1
    ring
  · rw [hg 1 1 1]
    norm_num
  · rw [hg 2 (-1) 3]
    norm_num

/-- C2: for every input vector and every basis index, the forward-mode
directional derivative seeded with that standard basis vector equals the
corresponding component of the gradient produced by one reverse-mode pass over
the same tape. -/
theorem forward_reverse_consistency (a b c : ℚ) (i : Fin 3) :
    (forward myTape [a, b, c] (stdBasis3 i)).map Prod.snd =
      (gradient myTape [a, b, c]).map fun g => g.getD i 0 := by
  have hT : myTape = myTapeDelay 0 := rfl
  fin_cases i
  · show Except.map Prod.snd (forward myTape [a, b, c] [1, 0, 0]) =
      Except.map (fun g => g.getD 0 0) (gradient myTape [a, b, c])
    rw [hT, forward_delay, gradient_delay]
    simp only [Except.map]
    congr 1
    rw [show ([b * 2 + a + a, 2 * a, 1 + c + c] : List ℚ).getD 0 0 = b * 2 + a + a from rfl]
    ring
  · show Except.map Prod.snd (forward myTape [a, b, c] [0, 1, 0]) =
      Except.map (fun g => g.getD 1 0) (gradient myTape [a, b, c])
    rw [hT, forward_delay, gradient_delay]
    simp only [Except.map]
    congr 1
    rw [show ([b * 2 + a + a, 2 * a, 1 + c + c] : List ℚ).getD 1 0 = 2 * a from rfl]
    ring
  · show Except.map Prod.snd (forward myTape [a, b, c] [0, 0, 1]) =
      Except.map (fun g => g.getD 2 0) (gradient myTape [a, b, c])
    rw [hT, forward_delay, gradient_delay]
    simp only [Except.map]
    congr 1
    rw [show ([b * 2 + a + a, 2 * a, 1 + c + c] : List ℚ).getD 2 0 = 1 + c + c from rfl]
    ring

/-- C4: the busy-loop delay recorded during tracing has no semantic effect:
for every iteration count and every input vector the delayed tape produces the
same output value and the same derivatives in forward mode, in the
evaluate-then-reverse path, and through the gradient driver, as the tape of
the function traced without the loop. -/
theorem delay_loop_semantically_inert (N : Nat) (a b c da db dc : ℚ) :
    (evaluate (myTapeDelay N) [a, b, c]).map Prod.fst =
      (evaluate myTape [a, b, c]).map Prod.fst ∧
    forward (myTapeDelay N) [a, b, c] [da, db, dc] =
      forward myTape [a, b, c] [da, db, dc] ∧
    ((evaluate (myTapeDelay N) [a, b, c]).bind fun p => reverse (myTapeDelay N) p.2 1) =
      ((evaluate myTape [a, b, c]).bind fun p => reverse myTape p.2 1) ∧
    gradient (myTapeDelay N) [a, b, c] = gradient myTape [a, b, c] := by
  have hT : myTape = myTapeDelay 0 := rfl
  refine ⟨?_, ?_, ?_, ?_⟩
  · rw [hT, evaluate_delay, evaluate_delay]
    rfl
  · rw [hT, forward_delay, forward_delay]
  · rw [hT, eval_reverse_delay, eval_reverse_delay]
  · rw [hT, gradient_delay, gradient_delay]

end ADemo

